import Mathlib

/-!
Shallow embedding of the traffic-obfuscation measurement core
(`src/sniffer.py` and `src/obfuscation.py`) and proofs about it.

Timestamps and derived quantities (durations, RTTs, rates) are modelled as
exact rationals `ℚ`.  Randomness (`random.randint`, `os.urandom`, AES nonce
generation, `random.uniform`) is modelled by passing the drawn values in as
explicit oracle arguments; theorems that need the oracle's contract (e.g.
`randint(a, b) ∈ [a, b]`) take it as a hypothesis.  Python dictionaries are
modelled as association lists: only `d[k] = v`, `k in d` / lookup and
`del d[k]` are used by the source, and those are insertion-order
independent.  The float square root in `jitter = variance ** 0.5` is
represented by carrying the (exact, rational) radicand: the record field
`jitter_ms_sq` holds the square of the reported jitter, which determines
the jitter uniquely since a square root is nonnegative and squaring is
injective on nonnegative values.
-/

namespace LibvirtObfuscation

/-- The fields of a parsed ICMP-over-IP packet that `analyze_packets` in
`src/sniffer.py` reads: `ip.src`, `ip.dst`, `icmp.type`, `icmp.id`,
`icmp.seq`. -/
structure IcmpInfo where
  src : String
  dst : String
  type : Nat
  id : Nat
  seq : Nat
deriving DecidableEq

/-- A captured packet observation: its byte length (`len(pkt)`), its
timestamp (`pkt.time`), and its ICMP layer if it has one (`IP in pkt and
ICMP in pkt`). -/
structure Packet where
  len : Nat
  time : ℚ
  icmp : Option IcmpInfo
deriving DecidableEq

/-- The key used by the matcher: `(ip.src, ip.dst, icmp.id, icmp.seq)`. -/
abbrev Key := String × String × Nat × Nat

/-- Association-list lookup, modelling `req_times[key]` / `key in req_times`. -/
def alookup {V : Type} (k : Key) : List (Key × V) → Option V
  | [] => none
  | kv :: rest => if kv.1 = k then some kv.2 else alookup k rest

/-- Association-list deletion, modelling `del req_times[key]`. -/
def aerase {V : Type} (k : Key) (l : List (Key × V)) : List (Key × V) :=
  l.filter (fun kv => kv.1 ≠ k)

/-- Association-list insertion with overwrite, modelling
`req_times[key] = pkt.time` (dict assignment replaces any previous binding
for the key). -/
def ainsert {V : Type} (k : Key) (v : V) (l : List (Key × V)) : List (Key × V) :=
  (k, v) :: aerase k l

/-- The mutable state of the request/reply matching loop in
`analyze_packets`: the pending dictionary `req_times` and the accumulator
`rtt_list`. -/
structure PState where
  req_times : List (Key × ℚ)
  rtt_list : List ℚ
deriving DecidableEq

/-- One iteration of the matching loop body of `analyze_packets`
(`src/sniffer.py` lines 37-48): an echo request (type 8) records its
timestamp under `(src, dst, id, seq)`; an echo reply (type 0) looks up
`(dst, src, id, seq)`, and on a hit appends `(reply time - request time) *
1000` to `rtt_list` and deletes the pending entry.  Packets without an
ICMP layer, and other ICMP types, are ignored. -/
def pstep (s : PState) (pkt : Packet) : PState :=
  match pkt.icmp with
  | none => s
  | some ic =>
    if ic.type = 8 then
      { s with req_times := ainsert (ic.src, ic.dst, ic.id, ic.seq) pkt.time s.req_times }
    else if ic.type = 0 then
      let key : Key := (ic.dst, ic.src, ic.id, ic.seq)
      match alookup key s.req_times with
      | some t0 =>
        { req_times := aerase key s.req_times
          rtt_list := s.rtt_list ++ [(pkt.time - t0) * 1000] }
      | none => s
    else s

/-- The whole matching loop, starting from an empty dictionary and an empty
RTT list. -/
def prun (packets : List Packet) : PState :=
  packets.foldl pstep { req_times := [], rtt_list := [] }

/-- Instrumented matcher state: mirrors `PState`, but the pending map
stores, besides the key, the trace position and the whole request packet,
and instead of accumulating bare RTT values it accumulates the matched
(request, reply) pairs, each as (position, packet).  It exists to state
which pairs the matching loop matched; `mrun_agree` below proves that
projecting it (timestamp of each pending packet, RTT of each pair)
recovers the source loop's `PState` exactly. -/
structure MState where
  pending : List (Key × (Nat × Packet))
  pairs : List ((Nat × Packet) × (Nat × Packet))
deriving DecidableEq

/-- Instrumented version of `pstep`, processing the packet at trace
position `i`. -/
def mstep (i : Nat) (s : MState) (pkt : Packet) : MState :=
  match pkt.icmp with
  | none => s
  | some ic =>
    if ic.type = 8 then
      { s with pending := ainsert (ic.src, ic.dst, ic.id, ic.seq) (i, pkt) s.pending }
    else if ic.type = 0 then
      let key : Key := (ic.dst, ic.src, ic.id, ic.seq)
      match alookup key s.pending with
      | some req =>
        { pending := aerase key s.pending, pairs := s.pairs ++ [(req, (i, pkt))] }
      | none => s
    else s

/-- Instrumented matching loop starting at trace position `i`. -/
def mrun : Nat → MState → List Packet → MState
  | _, s, [] => s
  | i, s, p :: ps => mrun (i + 1) (mstep i s p) ps

/-- The RTT sample a matched (request, reply) pair contributes:
`(reply time - request time) * 1000` milliseconds. -/
def pairRTT (pr : (Nat × Packet) × (Nat × Packet)) : ℚ :=
  (pr.2.2.time - pr.1.2.time) * 1000

/-- The matching relation of the spec: the pair `pr` joins the echo
request at trace position `pr.1.1` with an echo reply strictly later in
the trace, at position `pr.2.1`, whose (source, destination) addresses are
reversed and whose identifier and sequence are identical. -/
def MatchedPair (l : List Packet) (pr : (Nat × Packet) × (Nat × Packet)) : Prop :=
  pr.1.1 < pr.2.1 ∧ l[pr.1.1]? = some pr.1.2 ∧ l[pr.2.1]? = some pr.2.2 ∧
  ∃ icq icr, pr.1.2.icmp = some icq ∧ pr.2.2.icmp = some icr ∧
    icq.type = 8 ∧ icr.type = 0 ∧ icr.src = icq.dst ∧ icr.dst = icq.src ∧
    icr.id = icq.id ∧ icr.seq = icq.seq

/-- Invariant of the instrumented matcher over the trace `l`:
pending entries are earlier echo requests still awaiting a reply, pairs
are matched request/reply pairs, no request position is used twice
(across pairs and pending combined), no reply position is used twice, and
the pending map has at most one entry per key. -/
def MInv (l : List Packet) (m : MState) : Prop :=
  (∀ e ∈ m.pending, e.2.1 < l.length ∧ l[e.2.1]? = some e.2.2 ∧
    ∃ ic, e.2.2.icmp = some ic ∧ ic.type = 8 ∧
      e.1 = (ic.src, ic.dst, ic.id, ic.seq)) ∧
  (∀ pr ∈ m.pairs, MatchedPair l pr) ∧
  ((m.pairs.map fun pr => pr.1.1) ++ (m.pending.map fun e => e.2.1)).Nodup ∧
  (m.pairs.map fun pr => pr.2.1).Nodup ∧
  (m.pending.map Prod.fst).Nodup ∧
  (∀ pr ∈ m.pairs, pr.2.1 < l.length)

/-- The last packet of `p :: ps` (used for `packets[-1]`). -/
def lastPacket (p : Packet) : List Packet → Packet
  | [] => p
  | q :: qs => lastPacket q qs

/-- `packets[-1].time - packets[0].time if packets else 0`. -/
def rawDuration : List Packet → ℚ
  | [] => 0
  | p :: ps => (lastPacket p ps).time - p.time

/-- The statistics record built by `analyze_packets` (the fields the core
computes from the trace; the sender-side resource fields merged in later by
`main` are out of scope).  `jitter_ms_sq` is the square of the reported
`jitter_ms` (see the module comment). -/
structure Stats where
  packet_count : Nat
  total_bytes : Nat
  capture_duration_sec : ℚ
  throughput_bps : ℤ
  packet_sizes : List Nat
  avg_latency_ms : Option ℚ
  jitter_ms_sq : Option ℚ
  latency_samples : List ℚ
deriving DecidableEq

/-- Embedding of `analyze_packets` (`src/sniffer.py` lines 15-66).
Notes kept faithful to the source:
* `total_bytes` is the sum of `len(pkt)` over the trace;
* `duration` is last-minus-first timestamp, clamped to `0` in the record
  when not positive;
* `throughput_bps` is `int((total_bytes * 8) / duration)` when
  `duration > 0`, else `0`; Python `int()` truncates toward zero, which on
  this nonnegative quantity is the floor;
* with a nonempty `rtt_list`, `avg_latency_ms` is the mean; `jitter` is
  the square root of the Bessel-corrected variance when there are at least
  2 samples and is the float `0.0` otherwise, so `jitter_ms_sq` is that
  variance, resp. `0`;
* with an empty `rtt_list`, `avg_latency_ms` and the jitter field are
  `None` and `latency_samples` is `[]`. -/
def analyze_packets (packets : List Packet) : Stats :=
  let total_bytes := (packets.map Packet.len).sum
  let duration := rawDuration packets
  let rtt_list := (prun packets).rtt_list
  let n := rtt_list.length
  { packet_count := packets.length
    total_bytes := total_bytes
    capture_duration_sec := if 0 < duration then duration else 0
    throughput_bps := if 0 < duration then ⌊((total_bytes : ℚ) * 8) / duration⌋ else 0
    packet_sizes := packets.map Packet.len
    avg_latency_ms := if n = 0 then none else some (rtt_list.sum / (n : ℚ))
    jitter_ms_sq :=
      if n = 0 then none
      else if 1 < n then
        let mean := rtt_list.sum / (n : ℚ)
        some ((rtt_list.map (fun x => (x - mean) ^ 2)).sum / ((n : ℚ) - 1))
      else some 0
    latency_samples := rtt_list }

/-! ### Obfuscation transforms (`src/obfuscation.py`) -/

/-- Python truthiness of the optional rational `self.rate_bps`:
`None` and `0` are falsy. -/
def truthyQ : Option ℚ → Bool
  | none => false
  | some r => r ≠ 0

/-- Python truthiness of the optional integer `packet_size`. -/
def truthyN : Option Nat → Bool
  | none => false
  | some s => s ≠ 0

/-- Configuration of `TrafficShaper` (`src/obfuscation.py`). -/
structure TrafficShaper where
  mode : String
  min_delay : ℚ
  max_delay : ℚ
  rate_bps : Option ℚ
deriving DecidableEq

/-- Embedding of `TrafficShaper.shape`: the total time slept for one call.
`u` is the value drawn by `random.uniform(min_delay, max_delay)` in random
mode (unused in constant mode).  In constant mode the source guards with
Python truthiness `if self.rate_bps and packet_size:`, then sleeps
`packet_size * 8 / rate_bps` only when that delay is positive; otherwise
it sleeps the fixed `min_delay`.  Unrecognized modes sleep nothing. -/
def TrafficShaper.shape (s : TrafficShaper) (packet_size : Option Nat) (u : ℚ) : ℚ :=
  if s.mode = "random" then u
  else if s.mode = "constant" then
    if truthyQ s.rate_bps && truthyN packet_size then
      let delay := ((packet_size.getD 0 : ℚ) * 8) / s.rate_bps.getD 0
      if 0 < delay then delay else 0
    else s.min_delay
  else 0

/-- Configuration of `PaddingObfuscator`. -/
structure PaddingObfuscator where
  min_pad : ℤ
  max_pad : ℤ
deriving DecidableEq

/-- Embedding of `PaddingObfuscator.pad`.  `draw` is the value returned by
`random.randint(self.min_pad, self.max_pad)` (consulted only when
`max_pad > 0`); `urandom` models `os.urandom`, mapping a byte count to the
drawn byte list.  If the pad length is `<= 0` the input is returned
unchanged; otherwise `pad_length` random bytes are appended. -/
def PaddingObfuscator.pad (ob : PaddingObfuscator) (draw : ℤ)
    (urandom : Nat → List Nat) (data : List Nat) : List Nat :=
  let pad_length : ℤ := if 0 < ob.max_pad then draw else 0
  if pad_length ≤ 0 then data
  else data ++ urandom pad_length.toNat

/-- An AES-EAX cipher object as produced by `AES.new(key, AES.MODE_EAX)`:
its (randomly generated) nonce, and `encrypt_and_digest`, returning
`(ciphertext, tag)`.  The cipher itself is library code outside this
repository, so it is kept abstract; the properties the claims need
(ciphertext length equals plaintext length, nonce and tag are 16 bytes
for AES-EAX with default parameters) enter as hypotheses. -/
structure EAXCipher where
  nonce : List Nat
  encrypt_and_digest : List Nat → List Nat × List Nat

/-- Embedding of `EncryptionObfuscator.__init__`: a missing key is replaced
by the deterministic default `b'\x01' * 16`; then a key whose length is not
16, 24 or 32 raises `ValueError`. -/
def EncryptionObfuscator.init (key : Option (List Nat)) : Except String (List Nat) :=
  let key := key.getD (List.replicate 16 1)
  if key.length = 16 ∨ key.length = 24 ∨ key.length = 32 then Except.ok key
  else Except.error "Key must be 16, 24, or 32 bytes long for AES."

/-- Embedding of `EncryptionObfuscator.encrypt`: `newCipher` models
`AES.new(self.key, AES.MODE_EAX)` (fresh randomness each call); the result
is `cipher.nonce + tag + ciphertext`. -/
def EncryptionObfuscator.encrypt (newCipher : List Nat → EAXCipher)
    (key : List Nat) (data : List Nat) : List Nat :=
  let cipher := newCipher key
  let cd := cipher.encrypt_and_digest data
  cipher.nonce ++ cd.2 ++ cd.1

/-- The spec's formula for jitter, written from the spec's words: the
Bessel-corrected sample variance of the samples, i.e. the sum of squared
deviations from the mean divided by `n - 1` (the jitter itself is its
square root). -/
def specSampleVariance (samples : List ℚ) : ℚ :=
  let n : ℚ := samples.length
  let mean := samples.sum / n
  (samples.map (fun x => (x - mean) ^ 2)).sum / (n - 1)

/-! ### Claims about the obfuscation transforms and simple analysis facts -/

/-- Claim C9: on the empty trace, `analyze_packets` succeeds and returns a
well-formed record with `packet_count = 0`, `total_bytes = 0`, duration 0,
`throughput_bps = 0`, `avg_latency_ms` and jitter both `None`, and an
empty `latency_samples` list. -/
theorem spec_C9 :
    analyze_packets [] =
      { packet_count := 0, total_bytes := 0, capture_duration_sec := 0,
        throughput_bps := 0, packet_sizes := [], avg_latency_ms := none,
        jitter_ms_sq := none, latency_samples := [] } := by
  decide

/-- Claim C5, counterexample to the claim as stated: for a trace of two
packets of 50 bytes at times 0 and 3 the code reports
`throughput_bps = int(800/3) = 266`, which differs from the exact quotient
`total_bytes * 8 / duration = 800/3`. -/
theorem spec_C5_counterexample :
    (analyze_packets [⟨50, 0, none⟩, ⟨50, 3, none⟩]).throughput_bps = 266 ∧
      ((266 : ℚ) ≠ ((100 : ℚ) * 8) / 3) := by
  constructor
  · norm_num [analyze_packets, rawDuration, lastPacket, prun, pstep]
  · norm_num

/-- Claim C5, amended: when the raw capture duration is strictly positive,
`throughput_bps` is the integer truncation (floor, the quantity being
nonnegative) of `total_bytes * 8 / duration`; when the duration is 0 the
reported throughput is exactly 0 (a well-formed record, not a failure);
and a trace of 2 packets of 100 bytes each spanning a 1.0-second window
yields throughput 1600. -/
theorem spec_C5_amended (packets : List Packet) :
    (0 < rawDuration packets →
      (analyze_packets packets).throughput_bps =
        ⌊((((packets.map Packet.len).sum : ℕ) : ℚ) * 8) / rawDuration packets⌋) ∧
    (rawDuration packets = 0 → (analyze_packets packets).throughput_bps = 0) ∧
    (analyze_packets [⟨100, 0, none⟩, ⟨100, 1, none⟩]).throughput_bps = 1600 := by
  refine ⟨fun h => ?_, fun h => ?_,
    by norm_num [analyze_packets, rawDuration, lastPacket, prun, pstep]⟩
  · simp only [analyze_packets]
    rw [if_pos h]
  · simp only [analyze_packets]
    rw [if_neg (by rw [h]; exact lt_irrefl 0)]

/-- Witness for `spec_C5_amended` at the 2-packet, 100-bytes-each, 1-second
trace. -/
theorem spec_C5_witness :
    0 < rawDuration [⟨100, 0, none⟩, ⟨100, 1, none⟩] ∧
      (analyze_packets [⟨100, 0, none⟩, ⟨100, 1, none⟩]).throughput_bps =
        ⌊(((([⟨100, 0, none⟩, ⟨100, 1, none⟩] : List Packet).map Packet.len).sum : ℚ) * 8) /
            rawDuration [⟨100, 0, none⟩, ⟨100, 1, none⟩]⌋ :=
  ⟨by norm_num [rawDuration, lastPacket],
    (spec_C5_amended [⟨100, 0, none⟩, ⟨100, 1, none⟩]).1
      (by norm_num [rawDuration, lastPacket])⟩

/-- Claim C4, counterexample to the claim as stated: in constant mode with
target rate `R = 8000 > 0` and packet size `S = 0`, the Python truthiness
guard `if self.rate_bps and packet_size:` treats the size 0 as falsy, so
the shaper sleeps the fixed `min_delay = 1/100`, not `S*8/R = 0`. -/
theorem spec_C4_counterexample :
    TrafficShaper.shape ⟨"constant", 1/100, 1/10, some 8000⟩ (some 0) 0 = 1/100 ∧
      ((1 : ℚ)/100 ≠ ((0 : ℚ) * 8) / 8000) := by
  constructor
  · simp [TrafficShaper.shape, truthyQ, truthyN]
  · norm_num

/-- Claim C4, amended: in constant mode with a configured target rate
`R > 0` and a strictly positive packet size `S`, the shaping delay is
exactly `S * 8 / R` seconds; with no target rate configured the delay is
the fixed `min_delay` (a packet size of 0, or an absent size, also falls
back to `min_delay` through the truthiness guard). -/
theorem spec_C4_amended (md xd R : ℚ) (S : Nat) (u : ℚ) :
    (0 < R → 0 < S →
      TrafficShaper.shape ⟨"constant", md, xd, some R⟩ (some S) u = ((S : ℚ) * 8) / R) ∧
    (∀ sz, TrafficShaper.shape ⟨"constant", md, xd, none⟩ sz u = md) := by
  constructor
  · intro hR hS
    have hRne : R ≠ 0 := ne_of_gt hR
    have hSne : S ≠ 0 := Nat.pos_iff_ne_zero.mp hS
    have hS' : (0 : ℚ) < (S : ℚ) := by exact_mod_cast hS
    have hpos : 0 < (S : ℚ) * 8 / R := by positivity
    simp [TrafficShaper.shape, truthyQ, truthyN, hRne, hSne, hpos]
  · intro sz
    simp [TrafficShaper.shape, truthyQ]

/-- Witness for `spec_C4_amended`: rate 8000 bits/sec and a 100-byte packet
give a delay of `100 * 8 / 8000 = 1/10` seconds. -/
theorem spec_C4_witness :
    (0 : ℚ) < 8000 ∧ 0 < 100 ∧
      TrafficShaper.shape ⟨"constant", 1/100, 1/10, some 8000⟩ (some 100) 0 =
        ((100 : ℚ) * 8) / 8000 :=
  ⟨by norm_num, by norm_num,
    (spec_C4_amended (1/100) (1/10) 8000 100 0).1 (by norm_num) (by norm_num)⟩

/-- Claim C6: for `0 ≤ min_pad ≤ max_pad`, a `randint` draw inside
`[min_pad, max_pad]` and an `os.urandom` honouring its length contract,
the padded output extends the input by between `min_pad` and `max_pad`
bytes inclusive; `max_pad = 0` makes `pad` the identity, and a drawn pad
length of 0 returns the input unchanged. -/
theorem spec_C6 (ob : PaddingObfuscator) (draw : ℤ) (urandom : Nat → List Nat)
    (data : List Nat) (hmin : 0 ≤ ob.min_pad) (hmm : ob.min_pad ≤ ob.max_pad)
    (hlo : ob.min_pad ≤ draw) (hhi : draw ≤ ob.max_pad)
    (hur : ∀ n, (urandom n).length = n) :
    (ob.min_pad ≤ ((ob.pad draw urandom data).length : ℤ) - (data.length : ℤ) ∧
      ((ob.pad draw urandom data).length : ℤ) - (data.length : ℤ) ≤ ob.max_pad) ∧
    (ob.max_pad = 0 → ob.pad draw urandom data = data) ∧
    (draw = 0 → ob.pad draw urandom data = data) := by
  simp only [PaddingObfuscator.pad]
  by_cases hmax : 0 < ob.max_pad
  · rw [if_pos hmax]
    by_cases hd : draw ≤ 0
    · rw [if_pos hd]
      refine ⟨⟨by omega, by omega⟩, fun h0 => by omega, fun _ => rfl⟩
    · rw [if_neg hd]
      have hlen : ((data ++ urandom draw.toNat).length : ℤ) =
          (data.length : ℤ) + draw := by
        simp [hur]
        omega
      refine ⟨⟨by omega, by omega⟩, fun h0 => by omega, fun h0 => by omega⟩
  · rw [if_neg hmax, if_pos le_rfl]
    exact ⟨⟨by omega, by omega⟩, fun _ => rfl, fun _ => rfl⟩

/-- Witness for `spec_C6` with bounds `[2, 5]`, draw 3, a replicate-based
`urandom` and a 2-byte input. -/
theorem spec_C6_witness :
    (0 : ℤ) ≤ (⟨2, 5⟩ : PaddingObfuscator).min_pad ∧
    ((⟨2, 5⟩ : PaddingObfuscator).min_pad ≤
        (((⟨2, 5⟩ : PaddingObfuscator).pad 3 (fun m => List.replicate m 0)
            [1, 2]).length : ℤ) - (([1, 2] : List Nat).length : ℤ) ∧
      (((⟨2, 5⟩ : PaddingObfuscator).pad 3 (fun m => List.replicate m 0)
            [1, 2]).length : ℤ) - (([1, 2] : List Nat).length : ℤ) ≤
        (⟨2, 5⟩ : PaddingObfuscator).max_pad) :=
  ⟨by decide,
    (spec_C6 ⟨2, 5⟩ 3 (fun m => List.replicate m 0) [1, 2] (by decide) (by decide)
      (by decide) (by decide) (fun n => by simp)).1⟩

/-- Claim C7: for a key of valid length and any plaintext, the encryption
output is laid out as `nonce ++ tag ++ ciphertext`; its length is
`|nonce| + |tag| + |plaintext|` (using the EAX property that the
ciphertext has the plaintext's length); and the output length depends only
on the input length across calls whose cipher objects have nonces and tags
of matching lengths (the bytes themselves vary with the random nonce). -/
theorem spec_C7 (newCipher : List Nat → EAXCipher) (key data : List Nat)
    (hkey : key.length = 16 ∨ key.length = 24 ∨ key.length = 32)
    (hct : ((newCipher key).encrypt_and_digest data).1.length = data.length) :
    EncryptionObfuscator.encrypt newCipher key data =
      (newCipher key).nonce ++ ((newCipher key).encrypt_and_digest data).2 ++
        ((newCipher key).encrypt_and_digest data).1 ∧
    (EncryptionObfuscator.encrypt newCipher key data).length =
      (newCipher key).nonce.length + ((newCipher key).encrypt_and_digest data).2.length +
        data.length ∧
    (∀ (nc2 : List Nat → EAXCipher) (key2 data2 : List Nat),
      ((nc2 key2).encrypt_and_digest data2).1.length = data2.length →
      (nc2 key2).nonce.length = (newCipher key).nonce.length →
      ((nc2 key2).encrypt_and_digest data2).2.length =
        ((newCipher key).encrypt_and_digest data).2.length →
      data2.length = data.length →
      (EncryptionObfuscator.encrypt nc2 key2 data2).length =
        (EncryptionObfuscator.encrypt newCipher key data).length) := by
  refine ⟨rfl, ?_, ?_⟩
  · simp only [EncryptionObfuscator.encrypt, List.length_append]
    rw [hct]
  · intro nc2 key2 data2 hct2 hn ht hd
    simp only [EncryptionObfuscator.encrypt, List.length_append]
    rw [hct, hct2, hn, ht, hd]

/-- Witness for `spec_C7` with a 16-byte key, a 3-byte plaintext and a
cipher object with 16-byte nonce and tag: the output has `16+16+3 = 35`
bytes and the stated layout. -/
theorem spec_C7_witness :
    ((List.replicate 16 1 : List Nat).length = 16 ∨
      (List.replicate 16 1 : List Nat).length = 24 ∨
      (List.replicate 16 1 : List Nat).length = 32) ∧
    (EncryptionObfuscator.encrypt
        (fun _ => ⟨List.replicate 16 0, fun d => (d, List.replicate 16 2)⟩)
        (List.replicate 16 1) [5, 6, 7]).length =
      (List.replicate 16 0 : List Nat).length +
        (List.replicate 16 2 : List Nat).length + ([5, 6, 7] : List Nat).length :=
  ⟨by decide,
    (spec_C7 (fun _ => ⟨List.replicate 16 0, fun d => (d, List.replicate 16 2)⟩)
      (List.replicate 16 1) [5, 6, 7] (by decide) (by decide)).2.1⟩

/-- Claim C8: construction of the encryption transform fails if and only
if an explicit key of invalid length (not 16, 24 or 32 bytes) is supplied;
with no key supplied, the deterministic 16-byte default `b'\x01' * 16` is
substituted and construction succeeds. -/
theorem spec_C8 (key : Option (List Nat)) :
    ((∃ e, EncryptionObfuscator.init key = Except.error e) ↔
      (∃ k, key = some k ∧ ¬(k.length = 16 ∨ k.length = 24 ∨ k.length = 32))) ∧
    EncryptionObfuscator.init none = Except.ok (List.replicate 16 1) ∧
    (List.replicate 16 1 : List Nat).length = 16 := by
  refine ⟨?_, rfl, by decide⟩
  cases key with
  | none =>
    constructor
    · rintro ⟨e, he⟩
      have h0 : EncryptionObfuscator.init none =
          Except.ok (List.replicate 16 1) := rfl
      rw [h0] at he
      simp at he
    · rintro ⟨k, hk, -⟩
      exact Option.noConfusion hk
  | some k =>
    by_cases hk : k.length = 16 ∨ k.length = 24 ∨ k.length = 32
    · have h0 : EncryptionObfuscator.init (some k) = Except.ok k := by
        simp [EncryptionObfuscator.init, hk]
      constructor
      · rintro ⟨e, he⟩
        rw [h0] at he
        simp at he
      · rintro ⟨k2, hk2, hbad⟩
        injection hk2 with h
        subst h
        exact absurd hk hbad
    · have h0 : EncryptionObfuscator.init (some k) =
          Except.error "Key must be 16, 24, or 32 bytes long for AES." := by
        simp [EncryptionObfuscator.init, hk]
      constructor
      · intro _
        exact ⟨k, rfl, hk⟩
      · intro _
        exact ⟨_, h0⟩

/-! ### Claims about latency matching and jitter -/

theorem pstep_noicmp (s : PState) (p : Packet) (h : p.icmp = none) :
    pstep s p = s := by
  simp [pstep, h]

theorem foldl_pstep_noicmp (l : List Packet) (s : PState)
    (h : ∀ p ∈ l, p.icmp = none) : l.foldl pstep s = s := by
  induction l generalizing s with
  | nil => rfl
  | cons p ps ih =>
    rw [List.foldl_cons, pstep_noicmp s p (h p (by simp))]
    exact ih s fun q hq => h q (by simp [hq])

/-- Claim C1, counterexample to the claim as stated: a trace with exactly
one matched request/reply pair yields one RTT sample, and the code then
reports `jitter_ms = 0.0` — present and zero, not null/absent as the
claim states (`jitter_ms_sq` is the square of the reported jitter, so the
reported jitter is the float `0.0`, not `None`). -/
theorem spec_C1_counterexample :
    (analyze_packets
        [⟨84, 0, some ⟨"10.0.0.1", "10.0.0.2", 8, 1, 0⟩⟩,
          ⟨84, 1, some ⟨"10.0.0.2", "10.0.0.1", 0, 1, 0⟩⟩]).latency_samples.length = 1 ∧
      (analyze_packets
        [⟨84, 0, some ⟨"10.0.0.1", "10.0.0.2", 8, 1, 0⟩⟩,
          ⟨84, 1, some ⟨"10.0.0.2", "10.0.0.1", 0, 1, 0⟩⟩]).jitter_ms_sq = some 0 := by
  constructor
  · norm_num [analyze_packets, prun, pstep, ainsert, aerase, alookup]
  · norm_num [analyze_packets, prun, pstep, ainsert, aerase, alookup]

/-- Claim C1, amended: for every trace whose matching yields exactly 1 RTT
sample, the record's jitter is the float `0.0` (present, not null/absent);
for 2 or more samples, the jitter is the Bessel-corrected sample standard
deviation of the samples (divisor `n-1`), stated here on its square
`jitter_ms_sq`, which determines the nonnegative jitter uniquely. -/
theorem spec_C1_amended (packets : List Packet) :
    ((analyze_packets packets).latency_samples.length = 1 →
      (analyze_packets packets).jitter_ms_sq = some 0) ∧
    (2 ≤ (analyze_packets packets).latency_samples.length →
      (analyze_packets packets).jitter_ms_sq =
        some (specSampleVariance (analyze_packets packets).latency_samples)) := by
  have hl : (analyze_packets packets).latency_samples = (prun packets).rtt_list := rfl
  have hj : (analyze_packets packets).jitter_ms_sq =
      (if (prun packets).rtt_list.length = 0 then none
        else if 1 < (prun packets).rtt_list.length then
          some (((prun packets).rtt_list.map
              (fun x => (x - (prun packets).rtt_list.sum /
                ((prun packets).rtt_list.length : ℚ)) ^ 2)).sum /
            (((prun packets).rtt_list.length : ℚ) - 1))
        else some 0) := rfl
  constructor
  · intro h1
    rw [hl] at h1
    rw [hj, if_neg (by omega), if_neg (by omega)]
  · intro h2
    rw [hl] at h2
    rw [hj, if_neg (by omega), if_pos (by omega)]
    rfl

/-- Witness for `spec_C1_amended`: a trace with two matched pairs (RTTs
1000 ms and 2000 ms) has 2 samples and its jitter squared is the Bessel
variance of the samples. -/
theorem spec_C1_witness :
    2 ≤ (analyze_packets
        [⟨84, 0, some ⟨"10.0.0.1", "10.0.0.2", 8, 1, 0⟩⟩,
          ⟨84, 1, some ⟨"10.0.0.2", "10.0.0.1", 0, 1, 0⟩⟩,
          ⟨84, 2, some ⟨"10.0.0.1", "10.0.0.2", 8, 1, 1⟩⟩,
          ⟨84, 4, some ⟨"10.0.0.2", "10.0.0.1", 0, 1, 1⟩⟩]).latency_samples.length ∧
      (analyze_packets
        [⟨84, 0, some ⟨"10.0.0.1", "10.0.0.2", 8, 1, 0⟩⟩,
          ⟨84, 1, some ⟨"10.0.0.2", "10.0.0.1", 0, 1, 0⟩⟩,
          ⟨84, 2, some ⟨"10.0.0.1", "10.0.0.2", 8, 1, 1⟩⟩,
          ⟨84, 4, some ⟨"10.0.0.2", "10.0.0.1", 0, 1, 1⟩⟩]).jitter_ms_sq =
        some (specSampleVariance (analyze_packets
          [⟨84, 0, some ⟨"10.0.0.1", "10.0.0.2", 8, 1, 0⟩⟩,
            ⟨84, 1, some ⟨"10.0.0.2", "10.0.0.1", 0, 1, 0⟩⟩,
            ⟨84, 2, some ⟨"10.0.0.1", "10.0.0.2", 8, 1, 1⟩⟩,
            ⟨84, 4, some ⟨"10.0.0.2", "10.0.0.1", 0, 1, 1⟩⟩]).latency_samples) :=
  ⟨by norm_num [analyze_packets, prun, pstep, ainsert, aerase, alookup],
    (spec_C1_amended _).2
      (by norm_num [analyze_packets, prun, pstep, ainsert, aerase, alookup])⟩

/-- Claim C3: for every trace consisting of an echo request with key
`(A, B, id, seq)` at time `t0` and a later echo reply with key
`(B, A, id, seq)` at time `t1 > t0`, surrounded by arbitrary non-ICMP
traffic, the analysis computes the single RTT sample
`(t1 - t0) * 1000` milliseconds, appearing exactly once in
`latency_samples`. -/
theorem spec_C3 (pre mid post : List Packet) (A B : String) (id seq : Nat)
    (lreq lrep : Nat) (t0 t1 : ℚ)
    (hpre : ∀ p ∈ pre, p.icmp = none) (hmid : ∀ p ∈ mid, p.icmp = none)
    (hpost : ∀ p ∈ post, p.icmp = none) (ht : t0 < t1) :
    (analyze_packets (pre ++ [⟨lreq, t0, some ⟨A, B, 8, id, seq⟩⟩] ++ mid ++
        [⟨lrep, t1, some ⟨B, A, 0, id, seq⟩⟩] ++ post)).latency_samples =
      [(t1 - t0) * 1000] := by
  show (prun _).rtt_list = _
  unfold prun
  rw [List.foldl_append, List.foldl_append, List.foldl_append, List.foldl_append,
    foldl_pstep_noicmp pre _ hpre]
  simp only [List.foldl_cons, List.foldl_nil]
  rw [show pstep { req_times := [], rtt_list := [] } ⟨lreq, t0, some ⟨A, B, 8, id, seq⟩⟩ =
      { req_times := [((A, B, id, seq), t0)], rtt_list := [] } by
    simp [pstep, ainsert, aerase]]
  rw [foldl_pstep_noicmp mid _ hmid]
  rw [show pstep { req_times := [((A, B, id, seq), t0)], rtt_list := [] }
        ⟨lrep, t1, some ⟨B, A, 0, id, seq⟩⟩ =
      { req_times := [], rtt_list := [(t1 - t0) * 1000] } by
    simp [pstep, ainsert, aerase, alookup, List.filter]]
  rw [foldl_pstep_noicmp post _ hpost]

/-- Witness for `spec_C3`: the bare two-packet trace with `t0 = 0`,
`t1 = 2` yields the single sample `2000` ms. -/
theorem spec_C3_witness :
    (0 : ℚ) < 2 ∧
      (analyze_packets ([] ++ [⟨84, 0, some ⟨"a", "b", 8, 1, 0⟩⟩] ++ [] ++
          [⟨84, 2, some ⟨"b", "a", 0, 1, 0⟩⟩] ++ [])).latency_samples =
        [((2 : ℚ) - 0) * 1000] :=
  ⟨by norm_num,
    spec_C3 [] [] [] "a" "b" 1 0 84 84 0 2 (by simp) (by simp) (by simp) (by norm_num)⟩

/-- Claim C10: two echo requests with the identical key at times
`t0 < t1`, followed by a matching reply at `t2`, produce exactly one RTT
sample, computed from the most recent request: `(t2 - t1) * 1000`
milliseconds (the second request overwrites the first pending entry). -/
theorem spec_C10 (A B : String) (id seq : Nat) (l0 l1 l2 : Nat) (t0 t1 t2 : ℚ)
    (h01 : t0 < t1) :
    (analyze_packets [⟨l0, t0, some ⟨A, B, 8, id, seq⟩⟩,
        ⟨l1, t1, some ⟨A, B, 8, id, seq⟩⟩,
        ⟨l2, t2, some ⟨B, A, 0, id, seq⟩⟩]).latency_samples =
      [(t2 - t1) * 1000] := by
  show (prun _).rtt_list = _
  simp [prun, pstep, ainsert, aerase, alookup, List.filter]

/-- Witness for `spec_C10`: requests at times 0 and 1 and the reply at
time 3 give the single sample `(3 - 1) * 1000 = 2000` ms. -/
theorem spec_C10_witness :
    (0 : ℚ) < 1 ∧
      (analyze_packets [⟨84, 0, some ⟨"a", "b", 8, 1, 0⟩⟩,
          ⟨84, 1, some ⟨"a", "b", 8, 1, 0⟩⟩,
          ⟨84, 3, some ⟨"b", "a", 0, 1, 0⟩⟩]).latency_samples =
        [((3 : ℚ) - 1) * 1000] :=
  ⟨by norm_num, spec_C10 "a" "b" 1 0 84 84 84 0 1 3 (by norm_num)⟩

/-! ### The instrumented matcher refines the source matching loop -/

theorem alookup_mapTime (k : Key) (l : List (Key × (Nat × Packet))) :
    alookup k (l.map fun kv => (kv.1, kv.2.2.time)) =
      (alookup k l).map fun v => v.2.time := by
  induction l with
  | nil => rfl
  | cons kv rest ih =>
    by_cases h : kv.1 = k <;> simp [alookup, h, ih]

theorem aerase_mapTime (k : Key) (l : List (Key × (Nat × Packet))) :
    aerase k (l.map fun kv => (kv.1, kv.2.2.time)) =
      (aerase k l).map fun kv => (kv.1, kv.2.2.time) := by
  induction l with
  | nil => rfl
  | cons kv rest ih =>
    by_cases h : kv.1 = k <;> simp [aerase, List.filter_cons, h] at ih ⊢ <;> exact ih

theorem alookup_mem {V : Type} (k : Key) (l : List (Key × V)) (v : V)
    (h : alookup k l = some v) : (k, v) ∈ l := by
  induction l with
  | nil => exact absurd h (by simp [alookup])
  | cons kv rest ih =>
    obtain ⟨k1, v1⟩ := kv
    by_cases hk : k1 = k
    · rw [alookup, if_pos hk] at h
      injection h with h2
      subst hk
      subst h2
      exact List.mem_cons_self _ _
    · rw [alookup, if_neg hk] at h
      exact List.mem_cons_of_mem _ (ih h)

theorem aerase_eq_self {V : Type} (k : Key) (l : List (Key × V))
    (h : ∀ kv ∈ l, kv.1 ≠ k) : aerase k l = l := by
  induction l with
  | nil => rfl
  | cons kv rest ih =>
    simp only [aerase, List.filter_cons] at ih ⊢
    rw [if_pos (decide_eq_true (h kv (List.mem_cons_self _ _)))]
    exact congrArg (kv :: ·) (ih fun e he => h e (List.mem_cons_of_mem _ he))

theorem aerase_mem {V : Type} (k : Key) (l : List (Key × V)) (e : Key × V)
    (h : e ∈ aerase k l) : e ∈ l ∧ e.1 ≠ k := by
  have h2 := List.mem_filter.mp h
  exact ⟨h2.1, of_decide_eq_true h2.2⟩

/-- With no duplicate keys, the entry found by `alookup` is exactly what
`aerase` removes: the dictionary is a permutation of that entry consed
onto the erased dictionary. -/
theorem alookup_perm {V : Type} (k : Key) (l : List (Key × V)) (v : V)
    (hnd : (l.map Prod.fst).Nodup) (h : alookup k l = some v) :
    List.Perm l ((k, v) :: aerase k l) := by
  induction l with
  | nil => exact absurd h (by simp [alookup])
  | cons kv rest ih =>
    obtain ⟨k1, v1⟩ := kv
    rw [List.map_cons, List.nodup_cons] at hnd
    by_cases hk : k1 = k
    · rw [alookup, if_pos hk] at h
      injection h with h2
      subst hk
      subst h2
      have hrest : aerase k1 rest = rest := by
        refine aerase_eq_self k1 rest fun e he hek => hnd.1 ?_
        have hm : e.1 ∈ rest.map Prod.fst := List.mem_map_of_mem Prod.fst he
        rwa [hek] at hm
      have hhead : aerase k1 ((k1, v1) :: rest) = rest := by
        simp only [aerase, List.filter_cons]
        rw [if_neg (by simp)]
        exact hrest
      rw [hhead]
    · rw [alookup, if_neg hk] at h
      have hhead : aerase k ((k1, v1) :: rest) = (k1, v1) :: aerase k rest := by
        simp only [aerase, List.filter_cons]
        rw [if_pos (decide_eq_true hk)]
      rw [hhead]
      exact ((ih hnd.2 h).cons (k1, v1)).trans (List.Perm.swap _ _ _)

theorem mstep_agree (i : Nat) (s : PState) (m : MState) (p : Packet)
    (h1 : s.req_times = m.pending.map fun kv => (kv.1, kv.2.2.time))
    (h2 : s.rtt_list = m.pairs.map pairRTT) :
    (pstep s p).req_times =
      ((mstep i m p).pending.map fun kv => (kv.1, kv.2.2.time)) ∧
    (pstep s p).rtt_list = (mstep i m p).pairs.map pairRTT := by
  cases hic : p.icmp with
  | none => exact ⟨by simp [pstep, mstep, hic, h1], by simp [pstep, mstep, hic, h2]⟩
  | some ic =>
    by_cases h8 : ic.type = 8
    · constructor
      · simp [pstep, mstep, hic, h8, h1, ainsert, aerase_mapTime]
      · simp [pstep, mstep, hic, h8, h2]
    · by_cases h0 : ic.type = 0
      · cases hfind : alookup (ic.dst, ic.src, ic.id, ic.seq) m.pending with
        | none =>
          have hlk : alookup (ic.dst, ic.src, ic.id, ic.seq) s.req_times = none := by
            rw [h1, alookup_mapTime, hfind]
            rfl
          exact ⟨by simp [pstep, mstep, hic, h8, h0, hlk, hfind, h1, alookup_mapTime],
            by simp [pstep, mstep, hic, h8, h0, hlk, hfind, h2, alookup_mapTime]⟩
        | some req =>
          have hlk : alookup (ic.dst, ic.src, ic.id, ic.seq) s.req_times =
              some req.2.time := by
            rw [h1, alookup_mapTime, hfind]
            rfl
          constructor
          · simp [pstep, mstep, hic, h8, h0, hlk, hfind, h1, aerase_mapTime,
              alookup_mapTime]
          · simp [pstep, mstep, hic, h8, h0, hlk, hfind, h2, pairRTT, alookup_mapTime]
      · exact ⟨by simp [pstep, mstep, hic, h8, h0, h1],
          by simp [pstep, mstep, hic, h8, h0, h2]⟩

theorem mrun_agree (l : List Packet) : ∀ (i : Nat) (s : PState) (m : MState),
    s.req_times = (m.pending.map fun kv => (kv.1, kv.2.2.time)) →
    s.rtt_list = m.pairs.map pairRTT →
    (l.foldl pstep s).req_times =
      ((mrun i m l).pending.map fun kv => (kv.1, kv.2.2.time)) ∧
    (l.foldl pstep s).rtt_list = (mrun i m l).pairs.map pairRTT := by
  induction l with
  | nil => exact fun i s m h1 h2 => ⟨h1, h2⟩
  | cons p ps ih =>
    intro i s m h1 h2
    have h := mstep_agree i s m p h1 h2
    simp only [List.foldl_cons, mrun]
    exact ih (i + 1) _ _ h.1 h.2

theorem mrun_append (l1 l2 : List Packet) : ∀ (i : Nat) (s : MState),
    mrun i s (l1 ++ l2) = mrun (i + l1.length) (mrun i s l1) l2 := by
  induction l1 with
  | nil => intro i s; simp [mrun]
  | cons p ps ih =>
    intro i s
    rw [List.cons_append]
    show mrun (i + 1) (mstep i s p) (ps ++ l2) = _
    rw [ih (i + 1) (mstep i s p)]
    have hidx : i + 1 + ps.length = i + (p :: ps).length := by
      simp only [List.length_cons]
      omega
    rw [hidx]
    rfl

theorem getElem?_append_of_some {α : Type} (l l2 : List α) (i : Nat) (a : α)
    (h : l[i]? = some a) : (l ++ l2)[i]? = some a := by
  rw [List.getElem?_append_left (List.getElem?_eq_some.mp h).1]
  exact h

theorem matchedPair_append (l : List Packet) (p : Packet)
    (pr : (Nat × Packet) × (Nat × Packet)) (h : MatchedPair l pr) :
    MatchedPair (l ++ [p]) pr :=
  ⟨h.1, getElem?_append_of_some _ _ _ _ h.2.1,
    getElem?_append_of_some _ _ _ _ h.2.2.1, h.2.2.2⟩

theorem minv_append (l : List Packet) (p : Packet) (m : MState)
    (h : MInv l m) : MInv (l ++ [p]) m := by
  obtain ⟨h1, h2, h3, h4, h5, h6⟩ := h
  refine ⟨fun e he => ?_, fun pr hpr => matchedPair_append l p pr (h2 pr hpr),
    h3, h4, h5, fun pr hpr => ?_⟩
  · obtain ⟨ha, hb, hc⟩ := h1 e he
    exact ⟨by simp only [List.length_append, List.length_cons, List.length_nil]; omega,
      getElem?_append_of_some _ _ _ _ hb, hc⟩
  · have := h6 pr hpr
    simp only [List.length_append, List.length_cons, List.length_nil]
    omega

/-- All request positions recorded in a state satisfying the invariant are
strictly below the trace length. -/
theorem minv_bound (l : List Packet) (m : MState) (h : MInv l m) :
    ∀ i ∈ (m.pairs.map fun pr => pr.1.1) ++ (m.pending.map fun e => e.2.1),
      i < l.length := by
  obtain ⟨h1, h2, _, _, _, h6⟩ := h
  intro i hi
  rcases List.mem_append.mp hi with hi | hi
  · obtain ⟨pr, hpr, rfl⟩ := List.mem_map.mp hi
    exact lt_trans (h2 pr hpr).1 (h6 pr hpr)
  · obtain ⟨e, he, rfl⟩ := List.mem_map.mp hi
    exact (h1 e he).1

theorem mstep_inv (l : List Packet) (p : Packet) (m : MState)
    (h : MInv l m) : MInv (l ++ [p]) (mstep l.length m p) := by
  have hbound := minv_bound l m h
  obtain ⟨h1, h2, h3, h4, h5, h6⟩ := h
  have hlen : (l ++ [p]).length = l.length + 1 := by simp
  cases hic : p.icmp with
  | none =>
    have hs : mstep l.length m p = m := by simp [mstep, hic]
    rw [hs]
    exact minv_append l p m ⟨h1, h2, h3, h4, h5, h6⟩
  | some ic =>
    by_cases h8 : ic.type = 8
    · have hs : mstep l.length m p =
          { m with pending :=
              ainsert (ic.src, ic.dst, ic.id, ic.seq) (l.length, p) m.pending } := by
        simp [mstep, hic, h8]
      rw [hs]
      obtain ⟨g1, g2, g3, g4, g5, g6⟩ := minv_append l p m ⟨h1, h2, h3, h4, h5, h6⟩
      refine ⟨?_, g2, ?_, g4, ?_, g6⟩
      · intro e he
        rcases List.mem_cons.mp he with heq | hmem
        · subst heq
          exact ⟨by rw [hlen]; exact Nat.lt_succ_self _,
            List.getElem?_concat_length l p, ic, hic, h8, rfl⟩
        · exact g1 e (aerase_mem _ _ _ hmem).1
      · have hmapins : ((ainsert (ic.src, ic.dst, ic.id, ic.seq) (l.length, p)
              m.pending).map fun e => e.2.1) =
            l.length :: ((aerase (ic.src, ic.dst, ic.id, ic.seq) m.pending).map
              fun e => e.2.1) := rfl
        rw [hmapins]
        have hsub : ((m.pairs.map fun pr => pr.1.1) ++
              ((aerase (ic.src, ic.dst, ic.id, ic.seq) m.pending).map
                fun e => e.2.1)).Sublist
            ((m.pairs.map fun pr => pr.1.1) ++ (m.pending.map fun e => e.2.1)) :=
          ((List.filter_sublist m.pending).map _).append_left _
        have hfresh : l.length ∉ (m.pairs.map fun pr => pr.1.1) ++
            ((aerase (ic.src, ic.dst, ic.id, ic.seq) m.pending).map
              fun e => e.2.1) :=
          fun hmem => absurd (hbound l.length (hsub.subset hmem)) (lt_irrefl _)
        exact List.Perm.nodup (List.perm_middle.symm)
          (List.nodup_cons.mpr ⟨hfresh, hsub.nodup h3⟩)
      · have hkeys : ((ainsert (ic.src, ic.dst, ic.id, ic.seq) (l.length, p)
              m.pending).map Prod.fst) =
            (ic.src, ic.dst, ic.id, ic.seq) ::
              ((aerase (ic.src, ic.dst, ic.id, ic.seq) m.pending).map Prod.fst) := rfl
        rw [hkeys]
        refine List.nodup_cons.mpr ⟨fun hmem => ?_,
          ((List.filter_sublist m.pending).map _).nodup h5⟩
        obtain ⟨e, he, hek⟩ := List.mem_map.mp hmem
        exact absurd hek (aerase_mem _ _ _ he).2
    · by_cases h0 : ic.type = 0
      · cases hfind : alookup (ic.dst, ic.src, ic.id, ic.seq) m.pending with
        | none =>
          have hs : mstep l.length m p = m := by simp [mstep, hic, h8, h0, hfind]
          rw [hs]
          exact minv_append l p m ⟨h1, h2, h3, h4, h5, h6⟩
        | some req =>
          have hs : mstep l.length m p =
              { pending := aerase (ic.dst, ic.src, ic.id, ic.seq) m.pending,
                pairs := m.pairs ++ [(req, (l.length, p))] } := by
            simp [mstep, hic, h8, h0, hfind]
          rw [hs]
          have hmem : ((ic.dst, ic.src, ic.id, ic.seq), req) ∈ m.pending :=
            alookup_mem _ _ _ hfind
          obtain ⟨hreqlt, hreqget, icq, hicq, hicq8, hkeyeq⟩ := h1 _ hmem
          have hkey : ic.dst = icq.src ∧ ic.src = icq.dst ∧ ic.id = icq.id ∧
              ic.seq = icq.seq := by
            have := hkeyeq
            simp only [Prod.mk.injEq] at this
            exact ⟨this.1, this.2.1, this.2.2.1, this.2.2.2⟩
          have hnewpair : MatchedPair (l ++ [p]) (req, (l.length, p)) := by
            refine ⟨hreqlt, getElem?_append_of_some _ _ _ _ hreqget,
              List.getElem?_concat_length l p, icq, ic, hicq, hic, hicq8, h0,
              hkey.2.1, hkey.1, hkey.2.2.1, hkey.2.2.2⟩
          refine ⟨?_, ?_, ?_, ?_, ?_, ?_⟩
          · intro e he
            have hein := (aerase_mem _ _ _ he).1
            obtain ⟨ha, hb, hc⟩ := h1 e hein
            exact ⟨by omega, getElem?_append_of_some _ _ _ _ hb, hc⟩
          · intro pr hpr
            rcases List.mem_append.mp hpr with hpr | hpr
            · exact matchedPair_append l p pr (h2 pr hpr)
            · rw [List.mem_singleton.mp hpr]
              exact hnewpair
          · have hpermPending : List.Perm (m.pending.map fun e => e.2.1)
                (req.1 :: ((aerase (ic.dst, ic.src, ic.id, ic.seq)
                  m.pending).map fun e => e.2.1)) := by
              have := (alookup_perm _ _ _ h5 hfind).map (fun e => e.2.1)
              simpa using this
            have hshape :
                (((m.pairs ++ [(req, (l.length, p))]).map fun pr => pr.1.1) ++
                  ((aerase (ic.dst, ic.src, ic.id, ic.seq) m.pending).map
                    fun e => e.2.1)) =
                ((m.pairs.map fun pr => pr.1.1) ++
                  (req.1 :: ((aerase (ic.dst, ic.src, ic.id, ic.seq)
                    m.pending).map fun e => e.2.1))) := by
              simp
            rw [hshape]
            have hperm : List.Perm
                ((m.pairs.map fun pr => pr.1.1) ++
                  (req.1 :: ((aerase (ic.dst, ic.src, ic.id, ic.seq)
                    m.pending).map fun e => e.2.1)))
                ((m.pairs.map fun pr => pr.1.1) ++
                  (m.pending.map fun e => e.2.1)) :=
              hpermPending.symm.append_left _
            exact hperm.symm.nodup h3
          · have hshape : ((m.pairs ++ [(req, (l.length, p))]).map
                fun pr => pr.2.1) =
                (m.pairs.map fun pr => pr.2.1) ++ [l.length] := by simp
            rw [hshape, List.nodup_append]
            refine ⟨h4, List.nodup_singleton _, fun j hj => ?_⟩
            obtain ⟨pr, hpr, rfl⟩ := List.mem_map.mp hj
            have := h6 pr hpr
            simp only [List.mem_singleton]
            omega
          · exact ((List.filter_sublist m.pending).map Prod.fst).nodup h5
          · intro pr hpr
            rcases List.mem_append.mp hpr with hpr | hpr
            · have := h6 pr hpr
              omega
            · rw [List.mem_singleton.mp hpr]
              show l.length < (l ++ [p]).length
              rw [hlen]
              omega
      · have hs : mstep l.length m p = m := by simp [mstep, hic, h8, h0]
        rw [hs]
        exact minv_append l p m ⟨h1, h2, h3, h4, h5, h6⟩

theorem mrun_inv (l : List Packet) : MInv l (mrun 0 ⟨[], []⟩ l) := by
  induction l using List.reverseRecOn with
  | nil =>
    exact ⟨fun e he => absurd he (List.not_mem_nil e),
      fun pr hpr => absurd hpr (List.not_mem_nil pr),
      List.nodup_nil, List.nodup_nil, List.nodup_nil,
      fun pr hpr => absurd hpr (List.not_mem_nil pr)⟩
  | append_singleton l p ih =>
    rw [mrun_append l [p] 0 ⟨[], []⟩]
    simp only [mrun, Nat.zero_add]
    exact mstep_inv l p _ ih

/-- Claim C2: for every trace, the analysis terminates normally (all
functions here are total, so unmatched pending requests at end of capture
are simply dropped, contributing no sample and raising no error) and
`latency_samples` is exactly the RTT of the matched pairs in match order;
every matched pair joins an echo request with an echo reply observed
strictly later in the trace, matched by reversed (source, destination)
plus identical identifier and sequence; and no request position and no
reply position occurs in two pairs (a reply is matched to at most one
request and a request to at most one reply — the matched request is
removed from the pending map). -/
theorem spec_C2 (packets : List Packet) :
    (analyze_packets packets).latency_samples =
      (mrun 0 ⟨[], []⟩ packets).pairs.map pairRTT ∧
    (∀ pr ∈ (mrun 0 ⟨[], []⟩ packets).pairs, MatchedPair packets pr) ∧
    ((mrun 0 ⟨[], []⟩ packets).pairs.map fun pr => pr.1.1).Nodup ∧
    ((mrun 0 ⟨[], []⟩ packets).pairs.map fun pr => pr.2.1).Nodup := by
  obtain ⟨h1, h2, h3, h4, h5, h6⟩ := mrun_inv packets
  exact ⟨(mrun_agree packets 0 ⟨[], []⟩ ⟨[], []⟩ rfl rfl).2, h2,
    h3.of_append_left, h4⟩

/-- Witness for `spec_C2`: on the two-packet trace request-then-reply, the
matcher produces exactly the pair joining positions 0 and 1, and that pair
satisfies the matching relation. -/
theorem spec_C2_witness :
    ((0, (⟨84, (0 : ℚ), some ⟨"a", "b", 8, 1, 0⟩⟩ : Packet)),
        (1, (⟨84, (1 : ℚ), some ⟨"b", "a", 0, 1, 0⟩⟩ : Packet))) ∈
      (mrun 0 ⟨[], []⟩ [⟨84, 0, some ⟨"a", "b", 8, 1, 0⟩⟩,
        ⟨84, 1, some ⟨"b", "a", 0, 1, 0⟩⟩]).pairs ∧
    MatchedPair [⟨84, 0, some ⟨"a", "b", 8, 1, 0⟩⟩, ⟨84, 1, some ⟨"b", "a", 0, 1, 0⟩⟩]
      ((0, ⟨84, 0, some ⟨"a", "b", 8, 1, 0⟩⟩), (1, ⟨84, 1, some ⟨"b", "a", 0, 1, 0⟩⟩)) :=
  ⟨by decide,
    (spec_C2 [⟨84, 0, some ⟨"a", "b", 8, 1, 0⟩⟩,
      ⟨84, 1, some ⟨"b", "a", 0, 1, 0⟩⟩]).2.1 _ (by decide)⟩

end LibvirtObfuscation
